import Mathlib

/-!
Shallow embedding of the zkDB state-transition core.

Sources embedded here:
* `crates/zkdb-merkle/src/main.rs` — the guest state-transition program
  (`MerkleState`, `insert`, `query`, `prove`, `main`).
* `crates/zkdb-lib/src/lib.rs` — the host side (`SP1Executor::parse_output`,
  `Database::get`).
* `crates/zkdb-core/src/lib.rs` — shared command/result types.

Machine integers are `Nat` with explicit `% 2^w` where overflow matters;
bytes are `Nat` values intended to be `< 256`.  Rust library behaviour is
modelled faithfully: `BTreeMap<String, usize>` as a key-sorted association
list, `Vec` as `List`, `sha2`/`rs_merkle` SHA-256 as a full FIPS 180-4
implementation, `serde_json::Value` as an inductive `Json` tree.  The
textual JSON / base64 layers of the state codec are represented at the
JSON-tree level (the text and base64 encodings are injective external
library functions); panics (`expect`/`unwrap`/out-of-bounds indexing) are
modelled by `Option`, with `none` standing for an aborted execution.
-/

namespace ZkDB

/-- Bytes are naturals; all byte values produced by the embedding are `< 256`. -/
abbrev Byte := Nat

/-- 32-byte SHA-256 digests, as used for Merkle leaves. -/
abbrev Hash := List Byte

/-- Truncation to 32 bits, the word size of SHA-256. -/
def w32 (n : Nat) : Nat := n % 4294967296

/-- 32-bit right rotation. -/
def rotr (n x : Nat) : Nat := w32 ((x >>> n) ||| (x <<< (32 - n)))

/-- SHA-256 Σ₀. -/
def bsig0 (x : Nat) : Nat := rotr 2 x ^^^ rotr 13 x ^^^ rotr 22 x

/-- SHA-256 Σ₁. -/
def bsig1 (x : Nat) : Nat := rotr 6 x ^^^ rotr 11 x ^^^ rotr 25 x

/-- SHA-256 σ₀. -/
def ssig0 (x : Nat) : Nat := rotr 7 x ^^^ rotr 18 x ^^^ (x >>> 3)

/-- SHA-256 σ₁. -/
def ssig1 (x : Nat) : Nat := rotr 17 x ^^^ rotr 19 x ^^^ (x >>> 10)

/-- SHA-256 Ch, with ¬x as xor against the all-ones 32-bit word. -/
def ch (x y z : Nat) : Nat := (x &&& y) ^^^ ((x ^^^ 4294967295) &&& z)

/-- SHA-256 Maj. -/
def maj (x y z : Nat) : Nat := (x &&& y) ^^^ (x &&& z) ^^^ (y &&& z)

/-- The 64 SHA-256 round constants (FIPS 180-4 §4.2.2), in decimal. -/
def shaK : List Nat :=
  [1116352408, 1899447441, 3049323471, 3921009573, 961987163, 1508970993,
   2453635748, 2870763221, 3624381080, 310598401, 607225278, 1426881987,
   1925078388, 2162078206, 2614888103, 3248222580, 3835390401, 4022224774,
   264347078, 604807628, 770255983, 1249150122, 1555081692, 1996064986,
   2554220882, 2821834349, 2952996808, 3210313671, 3336571891, 3584528711,
   113926993, 338241895, 666307205, 773529912, 1294757372, 1396182291,
   1695183700, 1986661051, 2177026350, 2456956037, 2730485921, 2820302411,
   3259730800, 3345764771, 3516065817, 3600352804, 4094571909, 275423344,
   430227734, 506948616, 659060556, 883997877, 958139571, 1322822218,
   1537002063, 1747873779, 1955562222, 2024104815, 2227730452, 2361852424,
   2428436474, 2756734187, 3204031479, 3329325298]

/-- Big-endian 8-byte encoding of the bit length, for SHA-256 padding. -/
def be64 (n : Nat) : List Byte :=
  [(n >>> 56) % 256, (n >>> 48) % 256, (n >>> 40) % 256, (n >>> 32) % 256,
   (n >>> 24) % 256, (n >>> 16) % 256, (n >>> 8) % 256, n % 256]

/-- Big-endian 4-byte encoding of a 32-bit word. -/
def be32 (n : Nat) : List Byte :=
  [(n >>> 24) % 256, (n >>> 16) % 256, (n >>> 8) % 256, n % 256]

/-- SHA-256 message padding: `0x80`, zeros, then the 64-bit message bit length. -/
def sha256pad (msg : List Byte) : List Byte :=
  msg ++ [0x80] ++ List.replicate ((64 - (msg.length + 9) % 64) % 64) 0 ++
    be64 (8 * msg.length)

/-- Group bytes into big-endian 32-bit words. -/
def wordsOf : List Byte → List Nat
  | b0 :: b1 :: b2 :: b3 :: rest =>
      (b0 * 16777216 + b1 * 65536 + b2 * 256 + b3) :: wordsOf rest
  | _ => []

/-- Extend the 16 block words by `n` schedule words; `rw` is the reversed
    prefix of the schedule (head = most recent word). -/
def extendWords : Nat → List Nat → List Nat
  | 0, rw => rw
  | n + 1, rw =>
      extendWords n
        (w32 (ssig1 (rw.getD 1 0) + rw.getD 6 0 + ssig0 (rw.getD 14 0) +
          rw.getD 15 0) :: rw)

/-- The SHA-256 working state (a..h). -/
structure ShaState where
  a : Nat
  b : Nat
  c : Nat
  d : Nat
  e : Nat
  f : Nat
  g : Nat
  h : Nat

/-- One SHA-256 compression round. -/
def shaRound (s : ShaState) (k w : Nat) : ShaState :=
  let t1 := w32 (s.h + bsig1 s.e + ch s.e s.f s.g + k + w)
  let t2 := w32 (bsig0 s.a + maj s.a s.b s.c)
  ⟨w32 (t1 + t2), s.a, s.b, s.c, w32 (s.d + t1), s.e, s.f, s.g⟩

/-- Compress one 64-byte block into the chaining state. -/
def compressBlock (h0 : ShaState) (block : List Byte) : ShaState :=
  let ws := (extendWords 48 (wordsOf block).reverse).reverse
  let s := (shaK.zip ws).foldl (fun s kw => shaRound s kw.1 kw.2) h0
  ⟨w32 (h0.a + s.a), w32 (h0.b + s.b), w32 (h0.c + s.c), w32 (h0.d + s.d),
   w32 (h0.e + s.e), w32 (h0.f + s.f), w32 (h0.g + s.g), w32 (h0.h + s.h)⟩

/-- Split into 64-byte blocks. -/
def chunks64 : List Byte → List (List Byte)
  | [] => []
  | b :: rest => ((b :: rest).take 64) :: chunks64 ((b :: rest).drop 64)
termination_by l => l.length
decreasing_by simp [List.length_drop]; omega

/-- The SHA-256 initial hash value (FIPS 180-4 §5.3.3), in decimal. -/
def shaInit : ShaState :=
  ⟨1779033703, 3144134277, 1013904242, 2773480762,
   1359893119, 2600822924, 528734635, 1541459225⟩

/-- SHA-256 of a byte sequence (FIPS 180-4), as used by the `sha2` and
    `rs_merkle::algorithms::Sha256` crates. -/
def sha256 (msg : List Byte) : Hash :=
  let fin := (chunks64 (sha256pad msg)).foldl compressBlock shaInit
  be32 fin.a ++ be32 fin.b ++ be32 fin.c ++ be32 fin.d ++
    be32 fin.e ++ be32 fin.f ++ be32 fin.g ++ be32 fin.h

/-- Lower-case hex digit. -/
def hexDigit (n : Nat) : Char :=
  if n < 10 then Char.ofNat (48 + n) else Char.ofNat (87 + n)

/-- `hex::encode` of a byte sequence. -/
def hexEncode (bs : List Byte) : String :=
  String.mk (bs.flatMap fun b => [hexDigit (b / 16), hexDigit (b % 16)])

/-- UTF-8 encoding of a single code point (Rust `str::as_bytes` semantics). -/
def utf8Bytes (c : Nat) : List Byte :=
  if c < 0x80 then [c]
  else if c < 0x800 then [0xc0 ||| (c >>> 6), 0x80 ||| (c &&& 0x3f)]
  else if c < 0x10000 then
    [0xe0 ||| (c >>> 12), 0x80 ||| ((c >>> 6) &&& 0x3f), 0x80 ||| (c &&& 0x3f)]
  else
    [0xf0 ||| (c >>> 18), 0x80 ||| ((c >>> 12) &&& 0x3f),
     0x80 ||| ((c >>> 6) &&& 0x3f), 0x80 ||| (c &&& 0x3f)]

/-- The UTF-8 bytes of a string (Rust `String::as_bytes`). -/
def strBytes (s : String) : List Byte :=
  s.data.flatMap fun c => utf8Bytes c.toNat

/-- `serde_json::Value`.  Objects carry their fields in serialization order;
    objects built by the `json!` macro are key-sorted (serde_json's default
    map is a `BTreeMap`), while structs serialize fields in declaration
    order.  Numbers occurring in this program are unsigned integers. -/
inductive Json where
  | null : Json
  | bool : Bool → Json
  | num : Nat → Json
  | str : String → Json
  | arr : List Json → Json
  | obj : List (String × Json) → Json

/-- `serde_json::Value::get(&str)`: field lookup on an object, `None`
    otherwise. -/
def jsonGet : Json → String → Option Json
  | .obj fs, k => (fs.find? fun p => p.1 == k).map (·.2)
  | _, _ => none

/-- `serde_json::Value::as_str`. -/
def Json.asStr : Json → Option String
  | .str s => some s
  | _ => none

/-- `serde_json::Value::index(&str)`: like `get` but yielding `Null` when
    the field is missing or the value is not an object. -/
def jsonIndex (j : Json) : String → Json :=
  fun k => (jsonGet j k).getD Json.null

/-- `BTreeMap::insert` on the key-sorted association-list model of
    `BTreeMap<String, usize>` (Rust's byte-lexicographic `Ord` on `String`
    agrees with Lean's code-point order, since UTF-8 preserves it). -/
def btreeInsert : List (String × Nat) → String → Nat → List (String × Nat)
  | [], k, v => [(k, v)]
  | (k', v') :: rest, k, v =>
    if k < k' then (k, v) :: (k', v') :: rest
    else if k = k' then (k, v) :: rest
    else (k', v') :: btreeInsert rest k v

/-- `BTreeMap::get` on the association-list model. -/
def btreeGet : List (String × Nat) → String → Option Nat
  | [], _ => none
  | (k', v') :: rest, k => if k = k' then some v' else btreeGet rest k

/-- Keys appear in strictly increasing order — the canonical `BTreeMap`
    shape. -/
def KeysSorted (m : List (String × Nat)) : Prop :=
  List.Pairwise (fun p q : String × Nat => p.1 < q.1) m

/-- `MerkleState` from `zkdb-merkle/src/main.rs`: the Merkle leaves and the
    key → leaf-index map. -/
structure MerkleState where
  leaves : List Hash
  key_indices : List (String × Nat)

/-- `MerkleState::new()`. -/
def MerkleState.new : MerkleState := ⟨[], []⟩

/-- `insert` from `zkdb-merkle/src/main.rs`: hash the value, push the leaf,
    point the key at the new index.  Always returns `Ok({"status":"inserted"})`;
    the mutated state is returned explicitly. -/
def insert (state : MerkleState) (key : String) (value : String) :
    MerkleState × Except String Json :=
  let leaf := sha256 (strBytes value)
  let leaves := state.leaves ++ [leaf]
  let index := leaves.length - 1
  (⟨leaves, btreeInsert state.key_indices key index⟩,
   .ok (Json.obj [("status", Json.str "inserted")]))

/-- `query` from `zkdb-merkle/src/main.rs`.  The unguarded
    `state.leaves[index]` is modelled by `List.get?`; `none` for the whole
    call models the out-of-range panic. -/
def query (state : MerkleState) (key : String) :
    Option (Except String Json) :=
  match btreeGet state.key_indices key with
  | some index =>
      (state.leaves.get? index).map fun value_hash =>
        .ok (Json.obj [("value_hash", Json.str (hexEncode value_hash))])
  | none => some (.error "Key not found")

/-- One level of `rs_merkle` tree construction: hash sibling pairs, promote
    a lone odd node unchanged. -/
def nextLevel : List Hash → List Hash
  | a :: b :: rest => sha256 (a ++ b) :: nextLevel rest
  | [a] => [a]
  | [] => []

theorem nextLevel_length (l : List Hash) :
    (nextLevel l).length = (l.length + 1) / 2 := by
  match l with
  | a :: b :: rest => simp [nextLevel, nextLevel_length rest]; omega
  | [a] => simp [nextLevel]
  | [] => simp [nextLevel]

/-- `rs_merkle::MerkleTree::root`: fold levels up to a single hash; `none`
    on the empty tree. -/
def rootFrom (l : List Hash) : Option Hash :=
  match l with
  | [] => none
  | [a] => some a
  | a :: b :: rest => rootFrom (nextLevel (a :: b :: rest))
termination_by l.length
decreasing_by simp [nextLevel_length]; omega

/-- `rs_merkle::MerkleTree::proof(&[index])`: the authentication path of one
    leaf, as the ordered list of sibling hashes (an odd promoted node
    contributes none). -/
def proofHashes (l : List Hash) (i : Nat) : List Hash :=
  match l with
  | [] => []
  | [_] => []
  | a :: b :: rest =>
    match (a :: b :: rest).get? (i ^^^ 1) with
    | some s => s :: proofHashes (nextLevel (a :: b :: rest)) (i / 2)
    | none => proofHashes (nextLevel (a :: b :: rest)) (i / 2)
termination_by l.length
decreasing_by
  all_goals simp [nextLevel_length]; omega

/-- `prove` from `zkdb-merkle/src/main.rs`: build the tree, compute the
    proof, take the root (an `Err("Tree is empty")` result when absent),
    then emit the result object.  The `json!` object is key-sorted; the
    unguarded `state.leaves[index]` is `List.get?` with `none` modelling the
    panic; the proof field's base64-of-JSON text encoding is represented by
    the underlying array of hex-encoded sibling hashes. -/
def prove (state : MerkleState) (key : String) :
    Option (Except String Json) :=
  match btreeGet state.key_indices key with
  | some index =>
      let proof := proofHashes state.leaves index
      match rootFrom state.leaves with
      | none => some (.error "Tree is empty")
      | some root =>
          (state.leaves.get? index).map fun leaf =>
            .ok (Json.obj
              [("indices", Json.arr [Json.num index]),
               ("leaf", Json.str (hexEncode leaf)),
               ("proof", Json.arr (proof.map fun h => Json.str (hexEncode h))),
               ("root", Json.str (hexEncode root))])
  | none => some (.error "Key not found")

/-- Serialization of one leaf (`[u8; 32]` → JSON array of numbers). -/
def hashToJson (h : Hash) : Json := Json.arr (h.map Json.num)

/-- `serde_json::to_vec(&merkle_state)` at the JSON-tree level: the derived
    struct serializer emits fields in declaration order (`leaves`,
    `key_indices`); the `BTreeMap` serializes in key order, which the
    sorted association list already has. -/
def stateToJson (s : MerkleState) : Json :=
  Json.obj
    [("leaves", Json.arr (s.leaves.map hashToJson)),
     ("key_indices", Json.obj (s.key_indices.map fun p => (p.1, Json.num p.2)))]

/-- Deserialization of one byte: `u8` rejects anything outside `0..=255`. -/
def byteOfJson : Json → Option Byte
  | .num n => if n < 256 then some n else none
  | _ => none

/-- Elementwise sequence deserialization: all elements must parse (serde
    aborts on the first failure). -/
def mapOpt {α β : Type} (f : α → Option β) : List α → Option (List β)
  | [] => some []
  | a :: rest =>
    match f a, mapOpt f rest with
    | some b, some bs => some (b :: bs)
    | _, _ => none

/-- Deserialization of one leaf: exactly 32 bytes (`[u8; 32]`). -/
def hashOfJson : Json → Option Hash
  | .arr xs =>
      (mapOpt byteOfJson xs).bind fun bs =>
        if bs.length = 32 then some bs else none
  | _ => none

/-- Unsigned-integer deserialization (`usize` / `as_u64` at the tree level). -/
def natOfJson : Json → Option Nat
  | .num n => some n
  | _ => none

/-- `serde_json::from_slice::<MerkleState>` at the JSON-tree level: both
    fields are required (order-independent, unknown fields ignored); the
    `BTreeMap` is rebuilt by inserting each entry in order. -/
def stateOfJson (j : Json) : Option MerkleState :=
  match jsonGet j "leaves", jsonGet j "key_indices" with
  | some (Json.arr ls), some (Json.obj ks) =>
      (mapOpt hashOfJson ls).bind fun leaves =>
        (mapOpt (fun p => (natOfJson p.2).map fun n => (p.1, n)) ks).bind
          fun pairs =>
            some ⟨leaves, pairs.foldl (fun m p => btreeInsert m p.1 p.2) []⟩
  | _, _ => none

/-- The parsed shape of the guest's JSON stdin payload: the `command`
    string, the `params` value (`Null` when absent) and the optional state
    buffer, the latter already through the injective base64/JSON text
    layer, i.e. as the JSON tree it decodes to. -/
structure ProgramInput where
  command : String
  params : Json
  state : Option Json

/-- The command dispatch of `main` (lines 71–102 of
    `zkdb-merkle/src/main.rs`).  `none` models a panic (missing/invalid
    params, out-of-range leaf access); an unknown tag is the final match
    arm `Err("Unknown command")`. -/
def runCommand (s : MerkleState) (command : String) (params : Json) :
    Option (MerkleState × Except String Json) :=
  if command = "insert" then
    ((jsonGet params "key").bind Json.asStr).bind fun key =>
      ((jsonGet params "value").bind Json.asStr).bind fun value =>
        some (insert s key value)
  else if command = "query" then
    ((jsonGet params "key").bind Json.asStr).bind fun key =>
      (query s key).map fun r => (s, r)
  else if command = "prove" then
    ((jsonGet params "key").bind Json.asStr).bind fun key =>
      (prove s key).map fun r => (s, r)
  else some (s, Except.error "Unknown command")

/-- The committed output object (lines 104–116 of
    `zkdb-merkle/src/main.rs`): `{"result": ..., "state": ...}` with the
    `Err` case turned into `{"error": e}` by `unwrap_or_else`, and the
    (possibly unchanged) state always re-encoded. -/
def commitOutput (s' : MerkleState) (result : Except String Json) : Json :=
  Json.obj
    [("result",
      match result with
      | .ok v => v
      | .error e => Json.obj [("error", Json.str e)]),
     ("state", stateToJson s')]

/-- `main` of `zkdb-merkle/src/main.rs`: decode the state (fresh when
    absent, panic on corrupt bytes), dispatch the command, then commit the
    output.  `none` models an aborted (panicked) execution with no
    committed output. -/
def main (input : ProgramInput) : Option Json :=
  (match input.state with
   | some j => stateOfJson j
   | none => some MerkleState.new).bind fun s =>
    (runCommand s input.command input.params).map
      fun p : MerkleState × Except String Json => commitOutput p.1 p.2

/-- `StoreError` from `zkdb-store/src/lib.rs`. -/
inductive StoreError where
  | io (msg : String)
  | notFound (msg : String)
  | storage (msg : String)

/-- `DatabaseError` from `zkdb-lib/src/lib.rs`. -/
inductive DatabaseError where
  | queryExecutionFailed (msg : String)
  | proofGenerationFailed (msg : String)
  | proofVerificationFailed (msg : String)
  | store (e : StoreError)

/-- `SP1Executor::parse_output` (lines 290–327 of `zkdb-lib/src/lib.rs`),
    after the UTF-8/JSON text parse: `data` is `output_json["data"]`
    (`Null` when missing); `new_state` must index to an array of `u64`
    numbers, each cast `as u8` (truncating mod 256); the two `unwrap`
    calls panic otherwise, modelled by `none`. -/
def parseOutput (output : Json) : Option (Json × List Byte) :=
  let data := jsonIndex output "data"
  match jsonIndex output "new_state" with
  | Json.arr xs =>
      (mapOpt natOfJson xs).map fun ns => (data, ns.map (· % 256))
  | _ => none

/-- `Database::get` (lines 98–144 of `zkdb-lib/src/lib.rs`), with the two
    external calls abstracted into inputs: `queryData` is the `data` field
    the executor returned for `Query{key}`, and `storeValue` the Store's
    answer for the same key.  Error-message payloads that Rust builds with
    `format!` are abbreviated to their literal prefix. -/
def databaseGet (queryData : Json) (storeValue : Except StoreError (List Byte)) :
    Except DatabaseError (List Byte) :=
  if (jsonGet queryData "error").isSome then
    .error (.queryExecutionFailed "Query execution failed, error: ")
  else
    match (jsonGet queryData "value").bind Json.asStr with
    | none => .error (.queryExecutionFailed "Invalid result format")
    | some merkle_hash =>
      match storeValue with
      | .error e => .error (.store e)
      | .ok value =>
          if hexEncode (sha256 value) ≠ merkle_hash then
            .error (.store (.storage "Value hash mismatch - data may be corrupted"))
          else
            .ok value

/-- The state invariant: every index stored in the key map is a valid
    position in `leaves`. -/
def Inv (s : MerkleState) : Prop :=
  ∀ p ∈ s.key_indices, p.2 < s.leaves.length

/-- Well-formed states: leaves are genuine 32-byte digests and the key map
    is in canonical (key-sorted) `BTreeMap` shape.  Every state produced by
    deserialization has this form. -/
def WF (s : MerkleState) : Prop :=
  (∀ h ∈ s.leaves, h.length = 32 ∧ ∀ b ∈ h, b < 256) ∧
    KeysSorted s.key_indices

theorem btreeGet_insert_self (m : List (String × Nat)) (k : String) (v : Nat) :
    btreeGet (btreeInsert m k v) k = some v := by
  induction m with
  | nil => simp [btreeInsert, btreeGet]
  | cons p rest ih =>
    obtain ⟨k', v'⟩ := p
    by_cases h1 : k < k'
    · simp [btreeInsert, h1, btreeGet]
    · by_cases h2 : k = k'
      · simp [btreeInsert, h1, h2, btreeGet]
      · simp [btreeInsert, h1, h2, btreeGet, ih]

theorem btreeGet_mem (m : List (String × Nat)) (k : String) (i : Nat)
    (h : btreeGet m k = some i) : (k, i) ∈ m := by
  induction m with
  | nil => simp [btreeGet] at h
  | cons p rest ih =>
    obtain ⟨k', v'⟩ := p
    by_cases h2 : k = k'
    · subst h2
      simp [btreeGet] at h
      simp [h]
    · simp [btreeGet, h2] at h
      exact List.mem_cons_of_mem _ (ih h)

theorem mem_btreeInsert (m : List (String × Nat)) (k : String) (v : Nat)
    (p : String × Nat) (h : p ∈ btreeInsert m k v) : p = (k, v) ∨ p ∈ m := by
  induction m with
  | nil => simp [btreeInsert] at h; simp [h]
  | cons q rest ih =>
    obtain ⟨k', v'⟩ := q
    by_cases h1 : k < k'
    · simp only [btreeInsert, if_pos h1, List.mem_cons] at h ⊢
      tauto
    · by_cases h2 : k = k'
      · subst h2
        simp [btreeInsert, h1, List.mem_cons] at h ⊢
        tauto
      · simp only [btreeInsert, if_neg h1, if_neg h2, List.mem_cons] at h ⊢
        rcases h with h | h
        · tauto
        · rcases ih h with h' | h'
          · tauto
          · tauto

theorem btreeInsert_sorted (m : List (String × Nat)) (k : String) (v : Nat)
    (h : KeysSorted m) : KeysSorted (btreeInsert m k v) := by
  induction m with
  | nil => simp [btreeInsert, KeysSorted]
  | cons q rest ih =>
    obtain ⟨k', v'⟩ := q
    rw [KeysSorted, List.pairwise_cons] at h
    obtain ⟨hall, hrest⟩ := h
    by_cases h1 : k < k'
    · rw [btreeInsert]
      simp only [if_pos h1]
      rw [KeysSorted, List.pairwise_cons]
      constructor
      · intro q hq
        rcases List.mem_cons.mp hq with h' | h'
        · rw [h']; exact h1
        · exact lt_trans h1 (hall q h')
      · rw [KeysSorted] at *
        exact List.pairwise_cons.mpr ⟨hall, hrest⟩
    · by_cases h2 : k = k'
      · subst h2
        rw [btreeInsert]
        simp only [if_neg h1, eq_self_iff_true, if_true]
        rw [KeysSorted, List.pairwise_cons]
        exact ⟨hall, hrest⟩
      · rw [btreeInsert]
        simp only [if_neg h1, if_neg h2]
        rw [KeysSorted, List.pairwise_cons]
        constructor
        · intro q hq
          rcases mem_btreeInsert rest k v q hq with h' | h'
          · rw [h']
            exact lt_of_le_of_ne (not_lt.mp h1) (Ne.symm h2)
          · exact hall q h'
        · exact ih hrest

theorem countP_eq_zero_of_forall_lt (m : List (String × Nat)) (k : String)
    (h : ∀ p ∈ m, k < p.1) : (m.countP fun p => p.1 == k) = 0 := by
  induction m with
  | nil => simp
  | cons q rest ih =>
    rw [List.countP_cons]
    have hq : ¬(q.1 == k) = true := by
      simp only [beq_iff_eq]
      exact fun he => absurd he (ne_of_gt (h q (List.mem_cons_self _ _)))
    simp [hq, ih fun p hp => h p (List.mem_cons_of_mem _ hp)]

theorem countP_btreeInsert (m : List (String × Nat)) (k : String) (v : Nat)
    (h : KeysSorted m) : ((btreeInsert m k v).countP fun p => p.1 == k) = 1 := by
  induction m with
  | nil => simp [btreeInsert]
  | cons q rest ih =>
    obtain ⟨k', v'⟩ := q
    rw [KeysSorted, List.pairwise_cons] at h
    obtain ⟨hall, hrest⟩ := h
    by_cases h1 : k < k'
    · rw [btreeInsert]
      simp only [if_pos h1]
      rw [List.countP_cons]
      have hz : (((k', v') :: rest).countP fun p => p.1 == k) = 0 := by
        apply countP_eq_zero_of_forall_lt
        intro p hp
        rcases List.mem_cons.mp hp with h' | h'
        · rw [h']; exact h1
        · exact lt_trans h1 (hall p h')
      simp [hz]
    · by_cases h2 : k = k'
      · subst h2
        rw [btreeInsert]
        simp only [if_neg h1, eq_self_iff_true, if_true]
        rw [List.countP_cons]
        have hz : (rest.countP fun p => p.1 == k) = 0 :=
          countP_eq_zero_of_forall_lt rest k hall
        simp [hz]
      · rw [btreeInsert]
        simp only [if_neg h1, if_neg h2]
        rw [List.countP_cons]
        have hq : ¬(k' == k) = true := by
          simp only [beq_iff_eq]
          exact fun he => h2 (he.symm)
        simp [hq, ih hrest]

theorem btreeInsert_eq_append (m : List (String × Nat)) (k : String) (v : Nat)
    (h : ∀ p ∈ m, p.1 < k) : btreeInsert m k v = m ++ [(k, v)] := by
  induction m with
  | nil => simp [btreeInsert]
  | cons q rest ih =>
    obtain ⟨k', v'⟩ := q
    have hk : k' < k := h (k', v') (List.mem_cons_self _ _)
    rw [btreeInsert]
    simp only [if_neg (not_lt.mpr (le_of_lt hk)), if_neg (ne_of_gt hk)]
    rw [ih fun p hp => h p (List.mem_cons_of_mem _ hp)]
    simp

theorem foldl_btreeInsert_append (l m : List (String × Nat))
    (h : KeysSorted (m ++ l)) :
    l.foldl (fun acc p => btreeInsert acc p.1 p.2) m = m ++ l := by
  induction l generalizing m with
  | nil => simp
  | cons p rest ih =>
    obtain ⟨k, v⟩ := p
    have h1 : ∀ q ∈ m, q.1 < k := by
      intro q hq
      rw [KeysSorted, List.pairwise_append] at h
      exact h.2.2 q hq (k, v) (List.mem_cons_self _ _)
    rw [List.foldl_cons]
    show List.foldl (fun acc p => btreeInsert acc p.1 p.2)
      (btreeInsert m k v) rest = m ++ (k, v) :: rest
    rw [btreeInsert_eq_append m k v h1]
    have h2 : KeysSorted ((m ++ [(k, v)]) ++ rest) := by
      rw [List.append_assoc]
      simpa using h
    rw [ih (m ++ [(k, v)]) h2, List.append_assoc]
    simp

theorem foldl_btreeInsert_id (l : List (String × Nat)) (h : KeysSorted l) :
    l.foldl (fun acc p => btreeInsert acc p.1 p.2) [] = l :=
  foldl_btreeInsert_append l [] (by simpa using h)

theorem foldl_btreeInsert_sorted (l : List (String × Nat))
    (m : List (String × Nat)) (h : KeysSorted m) :
    KeysSorted (l.foldl (fun acc p => btreeInsert acc p.1 p.2) m) := by
  induction l generalizing m with
  | nil => exact h
  | cons p rest ih =>
    rw [List.foldl_cons]
    exact ih _ (btreeInsert_sorted m p.1 p.2 h)

theorem exists_of_mem_mapOpt {α β : Type} (f : α → Option β) (l : List α)
    (l' : List β) (h : mapOpt f l = some l') :
    ∀ b ∈ l', ∃ a, f a = some b := by
  induction l generalizing l' with
  | nil =>
    rw [mapOpt, Option.some_inj] at h
    subst h
    simp
  | cons a rest ih =>
    rw [mapOpt] at h
    cases hf : f a with
    | none => rw [hf] at h; simp at h
    | some b0 =>
      cases hr : mapOpt f rest with
      | none => rw [hf, hr] at h; simp at h
      | some bs =>
        rw [hf, hr, Option.some_inj] at h
        subst h
        intro b hb
        rcases List.mem_cons.mp hb with h' | h'
        · exact ⟨a, h'.symm ▸ hf⟩
        · exact ih bs hr b h'

theorem mapOpt_byteOfJson (h : List Byte) (hb : ∀ b ∈ h, b < 256) :
    mapOpt byteOfJson (h.map Json.num) = some h := by
  induction h with
  | nil => rfl
  | cons b t ih =>
    have hb0 : b < 256 := hb b (List.mem_cons_self _ _)
    rw [List.map_cons, mapOpt,
      ih fun x hx => hb x (List.mem_cons_of_mem _ hx)]
    simp [byteOfJson, hb0]

theorem byteOfJson_lt (j : Json) (b : Byte) (h : byteOfJson j = some b) :
    b < 256 := by
  cases j with
  | num n =>
    rw [byteOfJson] at h
    split at h
    case isTrue hn => rw [Option.some_inj] at h; subst h; exact hn
    case isFalse => simp at h
  | null => simp [byteOfJson] at h
  | bool x => simp [byteOfJson] at h
  | str x => simp [byteOfJson] at h
  | arr x => simp [byteOfJson] at h
  | obj x => simp [byteOfJson] at h

theorem hashOfJson_spec (j : Json) (h : Hash) (hj : hashOfJson j = some h) :
    h.length = 32 ∧ ∀ b ∈ h, b < 256 := by
  cases j with
  | arr xs =>
    rw [hashOfJson] at hj
    rcases Option.bind_eq_some.mp hj with ⟨bs, hbs, hif⟩
    split at hif
    case isTrue hlen =>
      rw [Option.some_inj] at hif
      subst hif
      refine ⟨hlen, fun b hb => ?_⟩
      rcases exists_of_mem_mapOpt byteOfJson xs bs hbs b hb with ⟨a, ha⟩
      exact byteOfJson_lt a b ha
    case isFalse => simp at hif
  | null => simp [hashOfJson] at hj
  | bool x => simp [hashOfJson] at hj
  | num x => simp [hashOfJson] at hj
  | str x => simp [hashOfJson] at hj
  | obj x => simp [hashOfJson] at hj

theorem hashOfJson_hashToJson (h : Hash) (h32 : h.length = 32)
    (hb : ∀ b ∈ h, b < 256) : hashOfJson (hashToJson h) = some h := by
  rw [hashToJson, hashOfJson, mapOpt_byteOfJson h hb]
  simp [h32]

theorem mapOpt_hashOfJson (ls : List Hash)
    (h : ∀ x ∈ ls, x.length = 32 ∧ ∀ b ∈ x, b < 256) :
    mapOpt hashOfJson (ls.map hashToJson) = some ls := by
  induction ls with
  | nil => rfl
  | cons x t ih =>
    obtain ⟨h32, hb⟩ := h x (List.mem_cons_self _ _)
    rw [List.map_cons, mapOpt, hashOfJson_hashToJson x h32 hb,
      ih fun y hy => h y (List.mem_cons_of_mem _ hy)]

theorem mapOpt_pairsOfJson (m : List (String × Nat)) :
    mapOpt (fun p => (natOfJson p.2).map fun n => (p.1, n))
      (m.map fun p => (p.1, Json.num p.2)) = some m := by
  induction m with
  | nil => rfl
  | cons p t ih =>
    rw [List.map_cons, mapOpt, ih]
    simp [natOfJson]

theorem jsonGet_state_leaves (a b : Json) :
    jsonGet (Json.obj [("leaves", a), ("key_indices", b)]) "leaves" =
      some a := rfl

theorem jsonGet_state_key_indices (a b : Json) :
    jsonGet (Json.obj [("leaves", a), ("key_indices", b)]) "key_indices" =
      some b := rfl

theorem stateOfJson_stateToJson (s : MerkleState) (hwf : WF s) :
    stateOfJson (stateToJson s) = some s := by
  obtain ⟨hl, hk⟩ := hwf
  rw [stateToJson, stateOfJson]
  rw [jsonGet_state_leaves, jsonGet_state_key_indices]
  simp only [mapOpt_hashOfJson s.leaves hl, mapOpt_pairsOfJson s.key_indices,
    Option.some_bind]
  rw [foldl_btreeInsert_id s.key_indices hk]

theorem stateOfJson_WF (j : Json) (s : MerkleState)
    (h : stateOfJson j = some s) : WF s := by
  rw [stateOfJson] at h
  split at h
  case h_2 => exact absurd h (by simp)
  case h_1 x y ls ks hls hks =>
    rcases Option.bind_eq_some.mp h with ⟨leaves, hleaves, h2⟩
    rcases Option.bind_eq_some.mp h2 with ⟨pairs, hpairs, h3⟩
    rw [Option.some_inj] at h3
    subst h3
    constructor
    · intro x hx
      rcases exists_of_mem_mapOpt hashOfJson ls leaves hleaves x hx with ⟨a, ha⟩
      exact hashOfJson_spec a x ha
    · exact foldl_btreeInsert_sorted pairs [] (by simp [KeysSorted])

theorem get?_append_length {α : Type} (l : List α) (a : α) :
    (l ++ [a]).get? l.length = some a := by
  induction l with
  | nil => rfl
  | cons b t ih => simp [ih]

theorem insert_fst_leaves (s : MerkleState) (k v : String) :
    (insert s k v).1.leaves = s.leaves ++ [sha256 (strBytes v)] := rfl

theorem insert_fst_key_indices (s : MerkleState) (k v : String) :
    (insert s k v).1.key_indices =
      btreeInsert s.key_indices k s.leaves.length := by
  simp [insert]

theorem insert_snd (s : MerkleState) (k v : String) :
    (insert s k v).2 =
      Except.ok (Json.obj [("status", Json.str "inserted")]) := rfl

theorem inv_insert (s : MerkleState) (k v : String) (h : Inv s) :
    Inv (insert s k v).1 := by
  intro p hp
  rw [insert_fst_key_indices] at hp
  rw [insert_fst_leaves, List.length_append]
  rcases mem_btreeInsert _ _ _ _ hp with h' | h'
  · rw [h']
    simp
  · have := h p h'
    simp
    omega

theorem main_none_state (cmd : String) (params : Json) :
    main ⟨cmd, params, none⟩ =
      (runCommand MerkleState.new cmd params).map fun p =>
        commitOutput p.1 p.2 := rfl

theorem main_some_state (cmd : String) (params : Json) (j : Json) :
    main ⟨cmd, params, some j⟩ =
      (stateOfJson j).bind fun s =>
        (runCommand s cmd params).map fun p => commitOutput p.1 p.2 := rfl

theorem jsonGet_commitOutput_state (s : MerkleState)
    (result : Except String Json) :
    jsonGet (commitOutput s result) "state" = some (stateToJson s) := rfl

theorem commitOutput_shape (s : MerkleState) (result : Except String Json) :
    ∃ r st, commitOutput s result = Json.obj [("result", r), ("state", st)] :=
  ⟨_, _, rfl⟩

theorem main_output_shape (input : ProgramInput) (out : Json)
    (h : main input = some out) :
    ∃ r st, out = Json.obj [("result", r), ("state", st)] := by
  obtain ⟨cmd, params, st⟩ := input
  cases st with
  | none =>
    rw [main_none_state] at h
    rcases Option.map_eq_some'.mp h with ⟨p, _, heq⟩
    exact heq ▸ commitOutput_shape p.1 p.2
  | some j =>
    rw [main_some_state] at h
    rcases Option.bind_eq_some.mp h with ⟨s, _, h2⟩
    rcases Option.map_eq_some'.mp h2 with ⟨p, _, heq⟩
    exact heq ▸ commitOutput_shape p.1 p.2

theorem runCommand_query_prove_state (s : MerkleState) (cmd : String)
    (params : Json) (s' : MerkleState) (r : Except String Json)
    (hc : cmd = "query" ∨ cmd = "prove")
    (h : runCommand s cmd params = some (s', r)) : s' = s := by
  rcases hc with hc | hc <;> subst hc <;> rw [runCommand] at h
  · rw [if_neg (by decide : ¬("query" = "insert")), if_pos rfl] at h
    rcases Option.bind_eq_some.mp h with ⟨key, _, h2⟩
    rcases Option.map_eq_some'.mp h2 with ⟨a, _, heq⟩
    exact (Prod.mk.injEq _ _ _ _ |>.mp heq).1.symm
  · rw [if_neg (by decide : ¬("prove" = "insert")),
      if_neg (by decide : ¬("prove" = "query")), if_pos rfl] at h
    rcases Option.bind_eq_some.mp h with ⟨key, _, h2⟩
    rcases Option.map_eq_some'.mp h2 with ⟨a, _, heq⟩
    exact (Prod.mk.injEq _ _ _ _ |>.mp heq).1.symm

/-- C1: the state transition is a deterministic pure function of its
    inputs — running `main` twice on the same (state, command) input yields
    identical committed outputs (hence byte-identical `new_state` and
    result once printed by the injective serializer). -/
theorem main_deterministic (input : ProgramInput) (o₁ o₂ : Option Json)
    (h₁ : main input = o₁) (h₂ : main input = o₂) : o₁ = o₂ :=
  h₁.symm.trans h₂

/-- Witness for C1 at the concrete input `Query{key:"a"}` on a fresh
    state. -/
theorem main_deterministic_witness :
    some (Json.obj
      [("result", Json.obj [("error", Json.str "Key not found")]),
       ("state", Json.obj
         [("leaves", Json.arr []), ("key_indices", Json.obj [])])]) =
    some (Json.obj
      [("result", Json.obj [("error", Json.str "Key not found")]),
       ("state", Json.obj
         [("leaves", Json.arr []), ("key_indices", Json.obj [])])]) :=
  main_deterministic ⟨"query", Json.obj [("key", Json.str "a")], none⟩ _ _
    rfl rfl

/-- C2 counterexample: after `Insert{key:"a", value:"x"}` on a fresh state,
    `Query{key:"a"}` returns the object `{"value_hash": hex(sha256("x"))}`,
    which has no `found` field at all — the claimed `found=true` result does
    not exist in the code. -/
theorem insert_query_found_cex :
    query (insert MerkleState.new "a" "x").1 "a" =
      some (Except.ok (Json.obj
        [("value_hash", Json.str (hexEncode (sha256 (strBytes "x"))))])) ∧
    jsonGet (Json.obj
        [("value_hash", Json.str (hexEncode (sha256 (strBytes "x"))))])
      "found" = none :=
  ⟨rfl, rfl⟩

/-- C2 (amended): for every key and value, `Insert{key, value}` followed by
    `Query{key}` on the resulting state returns the successful result
    `{"value_hash": h}` where `h` is the hex-encoded SHA-256 digest of the
    value bytes; found-ness is signalled by the `Ok` result itself, not by
    a `found` field. -/
theorem insert_then_query_value_hash (s : MerkleState) (k v : String) :
    query (insert s k v).1 k =
      some (Except.ok (Json.obj
        [("value_hash", Json.str (hexEncode (sha256 (strBytes v))))])) := by
  rw [query, insert_fst_key_indices, btreeGet_insert_self]
  show ((insert s k v).1.leaves.get? s.leaves.length).map _ = _
  rw [insert_fst_leaves, get?_append_length]
  rfl

/-- C3 counterexample: `Query` on an absent key returns the error value
    `Err("Key not found")`, which `main` commits as the structured result
    `{"error": "Key not found"}` — not a `found=false` result value. -/
theorem query_absent_error_value :
    query MerkleState.new "a" = some (Except.error "Key not found") ∧
    main ⟨"query", Json.obj [("key", Json.str "a")], none⟩ =
      some (Json.obj
        [("result", Json.obj [("error", Json.str "Key not found")]),
         ("state", Json.obj
           [("leaves", Json.arr []), ("key_indices", Json.obj [])])]) :=
  ⟨rfl, rfl⟩

/-- C3 (amended): for every state and every key absent from the key index,
    `Query{key}` returns the error value `Err("Key not found")`, which the
    dispatcher turns into a normal `(state, result)` outcome — a structured
    miss, never a panic/abort (`runCommand` yields `some`, never `none`,
    on a miss). -/
theorem query_absent_structured_result (s : MerkleState) (k : String)
    (h : btreeGet s.key_indices k = none) :
    query s k = some (Except.error "Key not found") ∧
    runCommand s "query" (Json.obj [("key", Json.str k)]) =
      some (s, Except.error "Key not found") := by
  have hq : query s k = some (Except.error "Key not found") := by
    rw [query, h]
  refine ⟨hq, ?_⟩
  show (query s k).map (fun r => (s, r)) = _
  rw [hq]
  rfl

/-- Witness for C3 at the fresh state and key "a". -/
theorem query_absent_structured_result_witness :
    query MerkleState.new "a" = some (Except.error "Key not found") ∧
    runCommand MerkleState.new "query" (Json.obj [("key", Json.str "a")]) =
      some (MerkleState.new, Except.error "Key not found") :=
  query_absent_structured_result MerkleState.new "a" rfl

/-- C4: the host cannot parse any guest output — the guest commits
    `{"result": ..., "state": ...}`, while `SP1Executor::parse_output`
    requires a `new_state` array field (and a `data` field) and unwraps,
    so it panics on every output the guest program can commit. -/
theorem parse_output_fails_on_guest_output (input : ProgramInput)
    (out : Json) (h : main input = some out) : parseOutput out = none := by
  rcases main_output_shape input out h with ⟨r, st, rfl⟩
  rfl

/-- Witness for C4 at the concrete input `Query{key:"a"}` on a fresh
    state. -/
theorem parse_output_fails_witness :
    parseOutput (Json.obj
      [("result", Json.obj [("error", Json.str "Key not found")]),
       ("state", Json.obj
         [("leaves", Json.arr []), ("key_indices", Json.obj [])])]) =
      none :=
  parse_output_fails_on_guest_output
    ⟨"query", Json.obj [("key", Json.str "a")], none⟩ _ rfl

/-- C5: every command execution preserves the state invariant — all stored
    key indices stay within `leaves`, and the output leaf sequence extends
    the input leaf sequence (leaves never shrink, existing leaves are
    untouched). -/
theorem run_command_preserves_invariant (s : MerkleState) (cmd : String)
    (params : Json) (s' : MerkleState) (r : Except String Json)
    (hInv : Inv s) (h : runCommand s cmd params = some (s', r)) :
    Inv s' ∧ ∃ t, s'.leaves = s.leaves ++ t := by
  rw [runCommand] at h
  by_cases h1 : cmd = "insert"
  · rw [if_pos h1] at h
    rcases Option.bind_eq_some.mp h with ⟨key, _, h2⟩
    rcases Option.bind_eq_some.mp h2 with ⟨value, _, h3⟩
    rw [Option.some_inj] at h3
    have hs : s' = (insert s key value).1 := by rw [h3]
    subst hs
    exact ⟨inv_insert s key value hInv,
      [sha256 (strBytes value)], insert_fst_leaves s key value⟩
  · rw [if_neg h1] at h
    by_cases h2 : cmd = "query"
    · rw [if_pos h2] at h
      rcases Option.bind_eq_some.mp h with ⟨key, _, h3⟩
      rcases Option.map_eq_some'.mp h3 with ⟨a, _, heq⟩
      have hs : s = s' := (Prod.mk.injEq _ _ _ _ |>.mp heq).1
      subst hs
      exact ⟨hInv, [], by simp⟩
    · rw [if_neg h2] at h
      by_cases h3 : cmd = "prove"
      · rw [if_pos h3] at h
        rcases Option.bind_eq_some.mp h with ⟨key, _, h4⟩
        rcases Option.map_eq_some'.mp h4 with ⟨a, _, heq⟩
        have hs : s = s' := (Prod.mk.injEq _ _ _ _ |>.mp heq).1
        subst hs
        exact ⟨hInv, [], by simp⟩
      · rw [if_neg h3, Option.some_inj] at h
        have hs : s = s' := (Prod.mk.injEq _ _ _ _ |>.mp h).1
        subst hs
        exact ⟨hInv, [], by simp⟩

/-- Witness for C5: the invariant holds before and after
    `Insert{key:"a", value:"x"}` on a fresh state. -/
theorem run_command_preserves_invariant_witness :
    Inv (insert MerkleState.new "a" "x").1 ∧
    ∃ t, (insert MerkleState.new "a" "x").1.leaves =
      MerkleState.new.leaves ++ t :=
  run_command_preserves_invariant MerkleState.new "insert"
    (Json.obj [("key", Json.str "a"), ("value", Json.str "x")])
    (insert MerkleState.new "a" "x").1
    (Except.ok (Json.obj [("status", Json.str "inserted")]))
    (by intro p hp; simp [MerkleState.new] at hp) rfl

/-- C6: inserting the same key twice always succeeds with an `inserted`
    result, appends one leaf per insert so the old leaf remains present,
    leaves exactly one mapping for the key in the (sorted) key index, and
    that mapping points at the leaf appended by the latest insert. -/
theorem insert_twice_overwrite (s : MerkleState) (k v₁ v₂ : String)
    (hs : KeysSorted s.key_indices) :
    (insert s k v₁).2 =
      Except.ok (Json.obj [("status", Json.str "inserted")]) ∧
    (insert (insert s k v₁).1 k v₂).1.leaves =
      s.leaves ++ [sha256 (strBytes v₁), sha256 (strBytes v₂)] ∧
    btreeGet (insert (insert s k v₁).1 k v₂).1.key_indices k =
      some (s.leaves.length + 1) ∧
    ((insert (insert s k v₁).1 k v₂).1.key_indices.countP
      fun p => p.1 == k) = 1 := by
  refine ⟨rfl, ?_, ?_, ?_⟩
  · rw [insert_fst_leaves, insert_fst_leaves, List.append_assoc]
    rfl
  · rw [insert_fst_key_indices, btreeGet_insert_self, insert_fst_leaves]
    simp
  · rw [insert_fst_key_indices]
    apply countP_btreeInsert
    rw [insert_fst_key_indices]
    exact btreeInsert_sorted s.key_indices k s.leaves.length hs

/-- Witness for C6 on the fresh state with key "a" and values "x", "y". -/
theorem insert_twice_overwrite_witness :
    (insert MerkleState.new "a" "x").2 =
      Except.ok (Json.obj [("status", Json.str "inserted")]) ∧
    (insert (insert MerkleState.new "a" "x").1 "a" "y").1.leaves =
      MerkleState.new.leaves ++
        [sha256 (strBytes "x"), sha256 (strBytes "y")] ∧
    btreeGet (insert (insert MerkleState.new "a" "x").1 "a" "y").1.key_indices
      "a" = some (MerkleState.new.leaves.length + 1) ∧
    ((insert (insert MerkleState.new "a" "x").1 "a" "y").1.key_indices.countP
      fun p => p.1 == "a") = 1 :=
  insert_twice_overwrite MerkleState.new "a" "x" "y" List.Pairwise.nil

/-- C7: every successful transition commits an output of shape
    `{"result": ..., "state": <encoded state>}`, and for `Query` and
    `Prove` the emitted state buffer is the re-encoding of the decoded
    input state, which decodes back to exactly the same index (same
    leaves, same key-to-index mapping). -/
theorem transitions_emit_state :
    (∀ (input : ProgramInput) (out : Json), main input = some out →
      ∃ r st, out = Json.obj [("result", r), ("state", st)]) ∧
    (∀ (j : Json) (s : MerkleState) (cmd : String) (params : Json)
      (out : Json), (cmd = "query" ∨ cmd = "prove") →
      stateOfJson j = some s →
      main ⟨cmd, params, some j⟩ = some out →
      jsonGet out "state" = some (stateToJson s) ∧
      stateOfJson (stateToJson s) = some s) := by
  constructor
  · exact main_output_shape
  · intro j s cmd params out hc hs h
    rw [main_some_state] at h
    rcases Option.bind_eq_some.mp h with ⟨s0, hs0, h2⟩
    have hse : s = s0 := Option.some_inj.mp (hs.symm.trans hs0)
    subst hse
    rcases Option.map_eq_some'.mp h2 with ⟨⟨s', r⟩, hrc, heq⟩
    have hss : s' = s := runCommand_query_prove_state s cmd params s' r hc hrc
    refine ⟨?_, stateOfJson_stateToJson s (stateOfJson_WF j s hs)⟩
    rw [← heq, hss]
    exact jsonGet_commitOutput_state _ _

/-- Witness for C7: a `Query` on the encoded empty state emits that state
    back and it decodes to the same index. -/
theorem transitions_emit_state_witness :
    jsonGet (Json.obj
      [("result", Json.obj [("error", Json.str "Key not found")]),
       ("state", Json.obj
         [("leaves", Json.arr []), ("key_indices", Json.obj [])])])
      "state" = some (stateToJson MerkleState.new) ∧
    stateOfJson (stateToJson MerkleState.new) = some MerkleState.new :=
  transitions_emit_state.2
    (Json.obj [("leaves", Json.arr []), ("key_indices", Json.obj [])])
    MerkleState.new "query" (Json.obj [("key", Json.str "a")]) _
    (Or.inl rfl) rfl rfl

/-- C8: `Database::get` returns the stored blob only when its recomputed
    SHA-256 hash equals the committed leaf hash, and fails with the
    data-integrity error (`Store(Storage("Value hash mismatch ..."))`)
    whenever the hashes differ, instead of returning the blob. -/
theorem database_get_integrity (data : Json) (committed : String)
    (value : List Byte) (herr : jsonGet data "error" = none)
    (hval : (jsonGet data "value").bind Json.asStr = some committed) :
    (hexEncode (sha256 value) ≠ committed →
      databaseGet data (.ok value) =
        .error (.store (.storage
          "Value hash mismatch - data may be corrupted"))) ∧
    (databaseGet data (.ok value) = .ok value ↔
      hexEncode (sha256 value) = committed) := by
  rw [databaseGet, herr, hval]
  simp only [Option.isSome_none, Bool.false_eq_true, if_false]
  by_cases hh : hexEncode (sha256 value) = committed
  · rw [if_neg (by simp [hh])]
    exact ⟨fun hne => absurd hh hne, by simp [hh]⟩
  · rw [if_pos hh]
    constructor
    · intro _
      rfl
    · constructor
      · intro hfalse
        exact absurd hfalse (by simp)
      · intro heq
        exact absurd heq hh

/-- Witness for C8 at a concrete committed hash and blob. -/
theorem database_get_integrity_witness :
    databaseGet
      (Json.obj [("value", Json.str (hexEncode (sha256 [104, 105])))])
      (.ok [104, 105]) = .ok [104, 105] :=
  (database_get_integrity
    (Json.obj [("value", Json.str (hexEncode (sha256 [104, 105])))])
    (hexEncode (sha256 [104, 105])) [104, 105] rfl rfl).2.mpr rfl

/-- C9 counterexample: the unknown command tag "delete" does not abort the
    transition — `main` commits a perfectly normal output carrying the
    structured result `{"error": "Unknown command"}` together with the
    re-encoded state. -/
theorem unknown_command_cex :
    main ⟨"delete", Json.null, none⟩ =
      some (Json.obj
        [("result", Json.obj [("error", Json.str "Unknown command")]),
         ("state", Json.obj
           [("leaves", Json.arr []), ("key_indices", Json.obj [])])]) := rfl

/-- C9 (amended): a command whose tag is not insert/query/prove is not
    fatal: the dispatch falls through to `Err("Unknown command")` and the
    transition still produces a normal (result, new_state) output whose
    result is the structured `{"error": "Unknown command"}` — the same
    shape as a semantic miss. -/
theorem unknown_command_normal_output (s : MerkleState) (cmd : String)
    (params : Json) (h1 : cmd ≠ "insert") (h2 : cmd ≠ "query")
    (h3 : cmd ≠ "prove") :
    runCommand s cmd params = some (s, Except.error "Unknown command") ∧
    main ⟨cmd, params, none⟩ =
      some (Json.obj
        [("result", Json.obj [("error", Json.str "Unknown command")]),
         ("state", stateToJson MerkleState.new)]) := by
  have hrc : ∀ s0 : MerkleState, runCommand s0 cmd params =
      some (s0, Except.error "Unknown command") := by
    intro s0
    rw [runCommand, if_neg h1, if_neg h2, if_neg h3]
  refine ⟨hrc s, ?_⟩
  rw [main_none_state, hrc MerkleState.new]
  rfl

/-- Witness for C9 at the concrete tag "delete". -/
theorem unknown_command_normal_output_witness :
    runCommand MerkleState.new "delete" Json.null =
      some (MerkleState.new, Except.error "Unknown command") ∧
    main ⟨"delete", Json.null, none⟩ =
      some (Json.obj
        [("result", Json.obj [("error", Json.str "Unknown command")]),
         ("state", stateToJson MerkleState.new)]) :=
  unknown_command_normal_output MerkleState.new "delete" Json.null
    (by decide) (by decide) (by decide)

/-- C10: on any state satisfying the index invariant, the unguarded
    `state.leaves[index]` accesses inside `query` and `prove` are in
    bounds, so neither function panics (no `none` outcome). -/
theorem query_prove_in_bounds (s : MerkleState) (k : String)
    (hInv : Inv s) : (query s k).isSome ∧ (prove s k).isSome := by
  constructor
  · rw [query]
    cases hg : btreeGet s.key_indices k with
    | none => simp
    | some i =>
      have hi : i < s.leaves.length := hInv (k, i) (btreeGet_mem _ _ _ hg)
      simp [List.get?_eq_get hi, List.getElem?_eq_getElem hi]
  · rw [prove]
    cases hg : btreeGet s.key_indices k with
    | none => simp
    | some i =>
      have hi : i < s.leaves.length := hInv (k, i) (btreeGet_mem _ _ _ hg)
      cases hr : rootFrom s.leaves with
      | none => simp
      | some root =>
        simp [List.get?_eq_get hi, List.getElem?_eq_getElem hi]

/-- Witness for C10 on the one-leaf state produced by the engine itself. -/
theorem query_prove_in_bounds_witness :
    (query (insert MerkleState.new "a" "x").1 "a").isSome ∧
    (prove (insert MerkleState.new "a" "x").1 "a").isSome :=
  query_prove_in_bounds (insert MerkleState.new "a" "x").1 "a"
    (by
      intro p hp
      simp [insert, MerkleState.new, btreeInsert] at hp
      simp [insert, hp])

end ZkDB
